import Mathlib

/-!
Verification of the mosh-lite state-synchronization core.

The Python sources are shallowly embedded:
* `src/mosh/state.py` — states, diff generation (`difflib.SequenceMatcher`
  opcodes) and diff application;
* `src/mosh/inflight.py` — the inflight tracker over sorted lists;
* `src/mosh/sender.py` — the class-based sender;
* `src/mosh/receiver.py` — the receiver state machine;
* `src/mosh/transport.py` — the transporter's send path;
* `src/mosh/datagram.py` — the binary packet codec.

Strings are `List Char`, Python byte strings are `List Nat` (each entry a
byte value), dictionaries are association lists, and `sortedcontainers.SortedList`
is a sorted `List Int`.  Operations that can raise an uncaught Python
exception return `Option`, with `none` marking the exception.
-/

namespace MoshSpec

/-- Python slice `l[i:j]` for non-negative indices (clamping like Python). -/
def pySlice (l : List Char) (i j : Nat) : List Char :=
  (l.take j).drop i

/-- Length of the longest common prefix of two lists. -/
def cplen : List Char → List Char → Nat
  | x :: xs, y :: ys => if x = y then cplen xs ys + 1 else 0
  | _, _ => 0

/-- Length of the longest match starting at `a[i]`, `b[j]` inside the search
window `a[..ahi]`, `b[..bhi]`. -/
def kLen (a b : List Char) (ahi bhi i j : Nat) : Nat :=
  cplen ((a.take ahi).drop i) ((b.take bhi).drop j)

/-- Models `difflib.SequenceMatcher.find_longest_match` (stdlib, junk-free
setting as invoked by `State.generate_patch` with `junk=None`): among the
matching blocks within the window it returns the longest one, preferring the
smallest start in `a` and then the smallest start in `b`, exactly as the
difflib contract states.  The result is `(i, j, k)` with
`a[i:i+k] == b[j:j+k]`. -/
def findLongestMatch (a b : List Char) (alo ahi blo bhi : Nat) : Nat × Nat × Nat :=
  (List.range' alo (ahi - alo)).foldl
    (fun best i =>
      (List.range' blo (bhi - blo)).foldl
        (fun best2 j =>
          if best2.2.2 < kLen a b ahi bhi i j then (i, j, kLen a b ahi bhi i j) else best2)
        best)
    (alo, blo, 0)

/-- First component of `findLongestMatch`. -/
def flmI (a b : List Char) (alo ahi blo bhi : Nat) : Nat :=
  (findLongestMatch a b alo ahi blo bhi).1

/-- Second component of `findLongestMatch`. -/
def flmJ (a b : List Char) (alo ahi blo bhi : Nat) : Nat :=
  (findLongestMatch a b alo ahi blo bhi).2.1

/-- Match length returned by `findLongestMatch`. -/
def flmK (a b : List Char) (alo ahi blo bhi : Nat) : Nat :=
  (findLongestMatch a b alo ahi blo bhi).2.2

/-- Models `difflib.SequenceMatcher.get_matching_blocks` before the
adjacent-merge pass: recursively split around the longest match.  The
difflib source uses an explicit queue only to avoid Python's recursion
limit; the recursion here computes the same list.  The first argument is
explicit termination fuel: one unit more than the window measure
`(ahi - alo) + (bhi - blo)` always suffices, because each nonempty match
strictly shrinks the window. -/
def mbGo (a b : List Char) : Nat → Nat → Nat → Nat → Nat → List (Nat × Nat × Nat)
  | 0, _, _, _, _ => []
  | fuel + 1, alo, ahi, blo, bhi =>
    if 0 < flmK a b alo ahi blo bhi then
      mbGo a b fuel alo (flmI a b alo ahi blo bhi) blo (flmJ a b alo ahi blo bhi) ++
        (flmI a b alo ahi blo bhi, flmJ a b alo ahi blo bhi, flmK a b alo ahi blo bhi) ::
          mbGo a b fuel (flmI a b alo ahi blo bhi + flmK a b alo ahi blo bhi) ahi
            (flmJ a b alo ahi blo bhi + flmK a b alo ahi blo bhi) bhi
    else []

/-- `a[i:i+n] == b[j:j+n]` — the two matched segments agree. -/
def MatchAt (a b : List Char) (i j n : Nat) : Prop :=
  (a.drop i).take n = (b.drop j).take n

/-- A block list is a monotone chain of genuine matches from `(x, y)` to at
most `(X, Y)`. -/
def ChainFits (a b : List Char) : Nat → Nat → List (Nat × Nat × Nat) → Nat → Nat → Prop
  | x, y, [], X, Y => x ≤ X ∧ y ≤ Y
  | x, y, (i, j, n) :: rest, X, Y =>
      x ≤ i ∧ y ≤ j ∧ MatchAt a b i j n ∧ ChainFits a b (i + n) (j + n) rest X Y

/-- The adjacent-merge loop of `get_matching_blocks` (difflib): collapse
blocks that continue each other, dropping empty accumulators. -/
def mergeLoop : Nat → Nat → Nat → List (Nat × Nat × Nat) → List (Nat × Nat × Nat)
  | i1, j1, k1, [] => if k1 = 0 then [] else [(i1, j1, k1)]
  | i1, j1, k1, (i2, j2, k2) :: rest =>
      if i1 + k1 = i2 ∧ j1 + k1 = j2 then mergeLoop i1 j1 (k1 + k2) rest
      else (if k1 = 0 then [] else [(i1, j1, k1)]) ++ mergeLoop i2 j2 k2 rest

/-- Models `difflib.SequenceMatcher.get_matching_blocks`: the recursive block
computation, the adjacent-merge pass, and the terminating sentinel
`(len(a), len(b), 0)`. -/
def getMatchingBlocks (a b : List Char) : List (Nat × Nat × Nat) :=
  mergeLoop 0 0 0 (mbGo a b (a.length + b.length + 1) 0 a.length 0 b.length) ++
    [(a.length, b.length, 0)]

/-- A chain that lands exactly on `(X, Y)`: the shape of
`get_matching_blocks` output (the sentinel ends at the two lengths). -/
def PreciseChain (a b : List Char) : Nat → Nat → List (Nat × Nat × Nat) → Nat → Nat → Prop
  | x, y, [], X, Y => x = X ∧ y = Y
  | x, y, (i, j, n) :: rest, X, Y =>
      x ≤ i ∧ y ≤ j ∧ MatchAt a b i j n ∧ PreciseChain a b (i + n) (j + n) rest X Y

/-- Opcode tags of `difflib.SequenceMatcher.get_opcodes`. -/
inductive OpTag where
  | equal
  | delete
  | insert
  | replace
deriving DecidableEq, Repr

/-- The loop of `difflib.SequenceMatcher.get_opcodes`: walk the matching
blocks, tagging the gap before each block and the block itself. -/
def opcodesLoop : Nat → Nat → List (Nat × Nat × Nat) → List (OpTag × Nat × Nat × Nat × Nat)
  | _, _, [] => []
  | i, j, (ai, bj, size) :: rest =>
      (if i < ai ∧ j < bj then [(OpTag.replace, i, ai, j, bj)]
       else if i < ai then [(OpTag.delete, i, ai, j, bj)]
       else if j < bj then [(OpTag.insert, i, ai, j, bj)]
       else []) ++
      (if size = 0 then [] else [(OpTag.equal, ai, ai + size, bj, bj + size)]) ++
      opcodesLoop (ai + size) (bj + size) rest

/-- Models `difflib.SequenceMatcher(None, a, b).get_opcodes()`. -/
def getOpcodes (a b : List Char) : List (OpTag × Nat × Nat × Nat × Nat) :=
  opcodesLoop 0 0 (getMatchingBlocks a b)

/-- A decoded diff opcode as built by `State.generate_patch` and consumed by
`State.apply` (src/mosh/state.py): the four tagged tuples, plus `other` for a
wire opcode whose tag is none of the four (`State.apply` has no branch for
such a tag and silently skips it). -/
inductive DiffOp where
  | equal (i1 i2 j1 j2 : Nat)
  | delete (i1 i2 : Nat) (txt : List Char)
  | insert (j1 j2 : Nat) (txt : List Char)
  | replace (i1 i2 j1 j2 : Nat) (oldTxt newTxt : List Char)
  | other (tag : List Char) (fields : List Nat)
deriving DecidableEq, Repr

/-- The loop body of `State.generate_patch` (src/mosh/state.py lines 23-31):
turn one difflib opcode into a self-contained patch entry. -/
def opOfTagged (a b : List Char) : OpTag × Nat × Nat × Nat × Nat → DiffOp
  | (OpTag.equal, i1, i2, j1, j2) => DiffOp.equal i1 i2 j1 j2
  | (OpTag.delete, i1, i2, _, _) => DiffOp.delete i1 i2 (pySlice a i1 i2)
  | (OpTag.insert, _, _, j1, j2) => DiffOp.insert j1 j2 (pySlice b j1 j2)
  | (OpTag.replace, i1, i2, j1, j2) =>
      DiffOp.replace i1 i2 j1 j2 (pySlice a i1 i2) (pySlice b j1 j2)

/-- `State.generate_patch` (src/mosh/state.py lines 17-33), modelled at the
opcode level: the Python code serializes this list with `json.dumps`, and
`State.apply` parses it back with `json.loads`; that codec round-trips and is
not re-modelled here. -/
def generate_patch (a b : List Char) : List DiffOp :=
  (getOpcodes a b).map (opOfTagged a b)

/-- What one opcode contributes to the output of `State.apply`
(src/mosh/state.py lines 38-55).  `equal` re-reads the source string by
index; `insert`/`replace` emit the carried text; `delete` emits nothing; an
opcode with any other tag matches no branch and emits nothing. -/
def opOutput (source : List Char) : DiffOp → List Char
  | DiffOp.equal i1 i2 _ _ => pySlice source i1 i2
  | DiffOp.delete _ _ _ => []
  | DiffOp.insert _ _ txt => txt
  | DiffOp.replace _ _ _ _ _ newTxt => newTxt
  | DiffOp.other _ _ => []

/-- The string produced by `State.apply` (src/mosh/state.py lines 35-57):
the concatenation of the opcode outputs over the source string. -/
def applyPatch (source : List Char) : List DiffOp → List Char
  | [] => []
  | op :: rest => opOutput source op ++ applyPatch source rest

/-! ## Inflight tracker (src/mosh/inflight.py)

`sortedcontainers.SortedList` is a sorted `List Int`, the `dependencies`
dict is an association list, and an operation that raises an uncaught
exception (`IndexError` on popping an empty list, `KeyError` on a missing
dict entry, `ValueError` on `SortedList.remove` of an absent value)
returns `none`. -/

/-- The inflight tracker state (`InflightTracker.__init__`). -/
structure InflightTracker where
  inflight_state_numbers : List Int
  dependencies : List (Int × Option Int)
  inflight_dependencies : List Int
  highest_ack : Int
deriving DecidableEq, Repr

/-- A fresh tracker: `highest_ack` starts at 0 (synced at state 0). -/
def initTracker : InflightTracker := ⟨[], [], [], 0⟩

/-- Python dict assignment `m[k] = v` (overwrite), for int-keyed dicts. -/
def dictInsert {β : Type} (m : List (Int × β)) (k : Int) (v : β) : List (Int × β) :=
  (k, v) :: m.filter (fun p => !decide (p.1 = k))

/-- `SortedList.add`: insert keeping the list sorted. -/
def slAdd (l : List Int) (x : Int) : List Int :=
  List.orderedInsert (· ≤ ·) x l

/-- `SortedList.bisect_left(x)`: the number of entries smaller than `x`. -/
def bisectLeft (l : List Int) (x : Int) : Nat :=
  l.countP (fun y => decide (y < x))

/-- `InflightTracker.sent` (src/mosh/inflight.py lines 34-39). -/
def sent (t : InflightTracker) (state_number : Int) (depends_on : Option Int) :
    InflightTracker :=
  { inflight_state_numbers := slAdd t.inflight_state_numbers state_number,
    dependencies := dictInsert t.dependencies state_number depends_on,
    inflight_dependencies :=
      match depends_on with
      | some d => slAdd t.inflight_dependencies d
      | none => t.inflight_dependencies,
    highest_ack := t.highest_ack }

/-- The dependency-removal loop of `InflightTracker.acked`: for each popped
state number look up its dependency (`KeyError` if absent) and, when it is
not `None`, remove one occurrence from `inflight_dependencies`
(`ValueError` if absent). -/
def removeDeps (deps : List (Int × Option Int)) (infDeps : List Int) :
    List Int → Option (List Int)
  | [] => some infDeps
  | k :: rest =>
      match List.lookup k deps with
      | none => none
      | some none => removeDeps deps infDeps rest
      | some (some d) =>
          if d ∈ infDeps then removeDeps deps (infDeps.erase d) rest
          else none

/-- `InflightTracker.acked` (src/mosh/inflight.py lines 15-32).  The Python
loop `while ind >= 0` pops `bisect_left(state_number) + 1` entries from the
front of the sorted list — one more than the count of entries below
`state_number` — raising `IndexError` when the list runs out.  It then
removes the popped states' dependencies and assigns
`highest_ack = state_number` (a plain assignment, not a `max`). -/
def acked (t : InflightTracker) (state_number : Int) : Option InflightTracker :=
  let ind := bisectLeft t.inflight_state_numbers state_number
  if t.inflight_state_numbers.length < ind + 1 then none
  else
    match removeDeps t.dependencies t.inflight_dependencies
        (t.inflight_state_numbers.take (ind + 1)) with
    | none => none
    | some deps' =>
        some { inflight_state_numbers := t.inflight_state_numbers.drop (ind + 1),
               dependencies := t.dependencies,
               inflight_dependencies := deps',
               highest_ack := state_number }

/-- `InflightTracker.min_inflight_dependency` (src/mosh/inflight.py lines 41-42). -/
def min_inflight_dependency (t : InflightTracker) : Option Int :=
  t.inflight_dependencies.head?

/-- The dependency recorded for `k`, flattened (`None` entries excluded). -/
def depOf (t : InflightTracker) (k : Int) : Option Int :=
  (List.lookup k t.dependencies).join

/-- Tracker states reachable through the protocol: `sent` is only invoked
with a fresh state number above everything in flight (state numbers are
drawn from a strictly increasing counter), `acked` with any number,
provided the call does not crash. -/
inductive Reachable : InflightTracker → Prop
  | init : Reachable initTracker
  | sent (t : InflightTracker) (n : Int) (d : Option Int) :
      Reachable t → (∀ k ∈ t.inflight_state_numbers, k < n) → Reachable (sent t n d)
  | acked (t t' : InflightTracker) (s : Int) :
      Reachable t → acked t s = some t' → Reachable t'

/-- Structural invariants of the tracker: sorted duplicate-free inflight
list, a dependency entry for every inflight state, and
`inflight_dependencies` equal (as a multiset) to the dependencies of the
inflight states. -/
def WellFormed (t : InflightTracker) : Prop :=
  t.inflight_state_numbers.Sorted (· ≤ ·) ∧
  t.inflight_state_numbers.Nodup ∧
  (∀ k ∈ t.inflight_state_numbers, (List.lookup k t.dependencies).isSome) ∧
  t.inflight_dependencies.Perm (t.inflight_state_numbers.filterMap (depOf t))

/-! ## States and the receiver (src/mosh/state.py, src/mosh/receiver.py)

`State.curr_stateno` is a process-global class counter; it is threaded
explicitly through every construction.  Wall-clock times are rationals. -/

/-- A `State` (src/mosh/state.py lines 6-12): the replicated string, the
number drawn from the global counter, and the optional first-send time. -/
structure MoshState where
  string : List Char
  num : Nat
  time_sent : Option ℚ
deriving DecidableEq, Repr

/-- `State.__init__`: the new state takes the current value of the global
counter `State.curr_stateno` as its `num`, and the counter increments by
one.  The counter starts at 1. -/
def mkState (s : List Char) (ctr : Nat) : MoshState × Nat :=
  (⟨s, ctr, none⟩, ctr + 1)

/-- `State.apply` (src/mosh/state.py lines 35-57): apply the patch to this
state's string and wrap the result in a brand-new `State` (which therefore
consumes a fresh global number). -/
def stateApply (st : MoshState) (patch : List DiffOp) (ctr : Nat) : MoshState × Nat :=
  mkState (applyPatch st.string patch) ctr

/-- A transport instruction as the receiver consumes it: the four numbers
plus the parsed diff (`TransportInstruction` in src/mosh/transport.py with
its JSON `diff` payload decoded into opcodes). -/
structure Instr where
  old_num : Int
  new_num : Int
  ack_num : Int
  throwaway_num : Int
  diff : List DiffOp
deriving DecidableEq, Repr

/-- The receiver's module-level state (src/mosh/receiver.py lines 13-19),
with the global `State` counter threaded alongside. -/
structure ReceiverState where
  states : List (Int × MoshState)
  highest_received : Int
  total_packets_received : Nat
  packets_discarded : Nat
  ctr : Nat
deriving DecidableEq, Repr

/-- Receiver module initialization: `states = {0: State("")}` with the
global counter at its starting value 1 (the empty state consumes number 1). -/
def initReceiver : ReceiverState :=
  ⟨[((0 : Int), (mkState [] 1).1)], 0, 0, 0, (mkState [] 1).2⟩

/-- `on_receive` (src/mosh/receiver.py lines 22-51).  Returns the updated
receiver state and the acknowledgment instruction handed to
`transport.send`, if any; `none` for the whole result models an uncaught
exception (`states[0]` missing when the ack's empty diff is built). -/
def on_receive (r : ReceiverState) (ins : Instr) : Option (ReceiverState × Option Instr) :=
  match List.lookup ins.old_num r.states with
  | some old =>
      let p := stateApply old ins.diff r.ctr
      let states' := dictInsert r.states ins.new_num p.1
      match List.lookup 0 states' with
      | none => none
      | some s0 =>
          some ({ states := states',
                  highest_received := max r.highest_received ins.new_num,
                  total_packets_received := r.total_packets_received + 1,
                  packets_discarded := r.packets_discarded,
                  ctr := p.2 },
                some ⟨0, 0, ins.new_num, ins.new_num,
                  generate_patch s0.string s0.string⟩)
  | none =>
      some ({ r with
              total_packets_received := r.total_packets_received + 1,
              packets_discarded := r.packets_discarded + 1 }, none)

/-! ## The class-based sender (src/mosh/sender.py) -/

/-- The diff payload placed on the wire by `Sender.send_state`: the first
send puts the raw new string into the diff field, later sends carry a
generated patch. -/
inductive WireDiff where
  | raw (s : List Char)
  | patch (ops : List DiffOp)
deriving DecidableEq, Repr

/-- The five arguments `Sender.send_state` passes to `Transporter.send`. -/
structure SendInstr where
  old_num : Int
  new_num : Int
  ack_num : Int
  throwaway_num : Int
  diff : WireDiff
deriving DecidableEq, Repr

/-- The sender state (src/mosh/sender.py lines 7-12): an inflight tracker
and the most recently sent state. -/
structure MoshSender where
  inflight : InflightTracker
  current_state : Option MoshState
deriving DecidableEq, Repr

/-- A freshly constructed `Sender`. -/
def initSender : MoshSender := ⟨initTracker, none⟩

/-- `Sender.send_state` (src/mosh/sender.py lines 20-54): pick the previous
state (or 0) as the reference, compute `throwaway_num` from the minimum
inflight dependency — falling back to `highest_ack` clamped at 0 when
nothing is in flight — call `transport.send`, then record the send in the
tracker and advance `current_state`. -/
def send_state (sd : MoshSender) (new_state : MoshState) : MoshSender × SendInstr :=
  let odd := match sd.current_state with
    | none => ((0 : Int), WireDiff.raw new_state.string, (none : Option Int))
    | some cur => ((cur.num : Int),
        WireDiff.patch (generate_patch cur.string new_state.string),
        some (cur.num : Int))
  let throwaway_num : Int := match min_inflight_dependency sd.inflight with
    | some m => m - 1
    | none => if sd.inflight.highest_ack ≥ 0 then sd.inflight.highest_ack else 0
  let ack_num : Int := if sd.inflight.highest_ack ≥ 0 then sd.inflight.highest_ack else 0
  ({ inflight := sent sd.inflight (new_state.num : Int) odd.2.2,
     current_state := some new_state },
   ⟨odd.1, (new_state.num : Int), ack_num, throwaway_num, odd.2.1⟩)

/-- The throwaway formula exactly as the specification words it:
`min(0, known − 1, (min_inflight_dep ?? +∞) − 1)`. -/
def specThrowaway (known : Int) (minDep : Option Int) : Int :=
  match minDep with
  | some m => min 0 (min (known - 1) (m - 1))
  | none => min 0 (known - 1)

/-! ## Transporter send path (src/mosh/transport.py) -/

/-- The transporter's mutable state relevant to sending
(src/mosh/transport.py lines 17-30). -/
structure Transp where
  seq : Nat
  last_timestamp : Option Nat
  current_signal_strength : Int
deriving DecidableEq, Repr

/-- A fresh transporter: `seq = 0`, no timestamp received, signal −50. -/
def initTransp : Transp := ⟨0, none, -50⟩

/-- `Transporter._time_to_int`: `int(1000 * time.time()) & 0xFFFF`, taking
the wall clock in milliseconds. -/
def timeToInt (now_ms : Nat) : Nat := now_ms % 65536

/-- The header fields of the packet assembled by `Transporter.send`. -/
structure PacketFields where
  direction : Bool
  seq : Nat
  ts : Nat
  ts_reply : Nat
  signal_strength_dbm : Int
  payload : SendInstr
deriving DecidableEq, Repr

/-- `Transporter.send` (src/mosh/transport.py lines 76-85):
`old_timestamp = self.last_timestamp or self._time_to_int()` — Python's
`or` falls through to the current time both when nothing was ever
received (`None`) and when the last received `ts` is the falsy value 0.
The two `_time_to_int()` calls within one send are modelled with the one
`now_ms` argument. -/
def transpSend (t : Transp) (now_ms : Nat) (ins : SendInstr) : Transp × PacketFields :=
  let curr := timeToInt now_ms
  let old := match t.last_timestamp with
    | some v => if v = 0 then curr else v
    | none => curr
  ({ t with seq := t.seq + 1 },
   ⟨true, t.seq, curr, old, t.current_signal_strength, ins⟩)

/-- The receive-path bookkeeping of `Transporter.async_recv`
(src/mosh/transport.py line 43): record the peer packet's `ts`. -/
def transpRecvNote (t : Transp) (peer_ts : Nat) : Transp :=
  { t with last_timestamp := some peer_ts }

/-! ## Datagram codec (src/mosh/datagram.py)

Byte strings are `List Nat` with one entry per byte.  The struct format is
`'!QHHh'`: big-endian u64, u16, u16, and a signed 16-bit `h` —
`struct.calcsize` is 14. -/

/-- Big-endian encoding of `n` into `w` bytes (`n` taken modulo `256^w`). -/
def toBE : Nat → Nat → List Nat
  | 0, _ => []
  | w + 1, n => toBE w (n / 256) ++ [n % 256]

/-- Big-endian decoding of a byte list. -/
def fromBE (bs : List Nat) : Nat :=
  bs.foldl (fun acc b => acc * 256 + b) 0

/-- A `Packet` (src/mosh/datagram.py lines 6-13). -/
structure Packet where
  direction : Bool
  seq : Nat
  ts : Nat
  ts_reply : Nat
  signal_strength_dbm : Int
  payload : List Nat
deriving DecidableEq, Repr

/-- `Packet.pack` (src/mosh/datagram.py lines 15-35):
`struct.pack('!QHHh', nonce, ts, ts_reply, signal_strength_dbm)` followed
by the payload.  The `assert`s on `seq`, `ts_reply` and
`signal_strength_dbm` become `none`; `ts` is masked with `& 0xFFFF`.  The
`h` field is a signed 16-bit big-endian integer (two's complement). -/
def pack (p : Packet) : Option (List Nat) :=
  if ¬ p.seq < 2 ^ 63 then none
  else if ¬ p.ts_reply ≤ 0xFFFF then none
  else if ¬ (-127 ≤ p.signal_strength_dbm ∧ p.signal_strength_dbm ≤ 0) then none
  else
    some (toBE 8 ((if p.direction then 1 else 0) * 2 ^ 63 + p.seq) ++
      (toBE 2 (p.ts % 65536) ++
        (toBE 2 p.ts_reply ++
          (toBE 2 (p.signal_strength_dbm % 65536).toNat ++ p.payload))))

/-- `Packet.unpack` (src/mosh/datagram.py lines 37-51): fewer than 14
bytes raise `struct.error`; otherwise read the four big-endian fields,
split the nonce into the direction bit (bit 63) and the low 63 bits, and
take the rest verbatim as payload. -/
def unpack (bs : List Nat) : Option Packet :=
  if bs.length < 14 then none
  else
    some ⟨(fromBE (bs.take 8) / 2 ^ 63) % 2 = 1,
      fromBE (bs.take 8) % 2 ^ 63,
      fromBE ((bs.drop 8).take 2),
      fromBE ((bs.drop 10).take 2),
      if 32768 ≤ fromBE ((bs.drop 12).take 2) then
        (fromBE ((bs.drop 12).take 2) : Int) - 65536
      else (fromBE ((bs.drop 12).take 2) : Int),
      bs.drop 14⟩

/-! ## The λ-policy sender, modelled from the spec (§4.F)

The module-level sender (`sender.init` / `sender.send_message` /
`sender.on_receive`) that spec §4.F describes is code of this repository
that is not under src/: src/mosh/tests/test_sender.py and
src/testbed/app/mosh_client.py import it and call that API, which the
class-based src/mosh/sender.py does not provide.  Its reference-state
selection is therefore modelled from the spec's words. -/

/-- A sender-side state for the spec model: the replicated string and the
optional wall-clock time of its first transmission. -/
structure SpecState where
  string : List Char
  time_sent : Option ℚ
deriving DecidableEq, Repr

/-- Modelled from the spec: the state kept by the missing module-level
sender — `states : state_number → State`, `next_state_num` starting at 1,
an `InflightTracker`, the transporter's current RTO estimate, and λ. -/
structure SpecSender where
  states : List (Int × SpecState)
  next_state_num : Int
  inflight : InflightTracker
  rto : Option ℚ
  lam : ℚ
deriving DecidableEq, Repr

/-- Modelled from the spec: the staleness gate of §4.F step 2 —
`states[assumed].time_sent` is set, an RTO estimate exists, and
`now − time_sent < RTO`. -/
def specFresh (s : SpecSender) (assumed : Int) (now : ℚ) : Bool :=
  match List.lookup assumed s.states with
  | none => false
  | some st =>
      match st.time_sent, s.rto with
      | some ts, some r => decide (now - ts < r)
      | _, _ => false

/-- Modelled from the spec: `send_message` of §4.F.  The per-send uniform
draw in `[0, 1)` is the explicit `coin` argument; "pick `known` with
probability λ" is `coin < λ`.  Steps: allocate `n`, select the reference
state (`known = inflight.highest_ack` with probability λ when the gate is
open, `assumed = n − 1` otherwise; `known` whenever the gate is closed),
diff against it, compute the spec's `throwaway_num`, send, mark
`time_sent`, and record the send in the tracker. -/
def send_message (s : SpecSender) (newStr : List Char) (now coin : ℚ) :
    SpecSender × Instr :=
  let n := s.next_state_num
  let assumed := n - 1
  let known := s.inflight.highest_ack
  let old_num := if specFresh s assumed now then
      (if coin < s.lam then known else assumed)
    else known
  let oldStr := match List.lookup old_num s.states with
    | some st => st.string
    | none => []
  let diff := generate_patch oldStr newStr
  let throwaway := specThrowaway known (min_inflight_dependency s.inflight)
  ({ states := dictInsert s.states n ⟨newStr, some now⟩,
     next_state_num := n + 1,
     inflight := sent s.inflight n (some old_num),
     rto := s.rto,
     lam := s.lam },
   ⟨old_num, n, known, throwaway, diff⟩)

/-- A fold preserves any invariant that every step preserves. -/
theorem foldl_invariant {α β : Type} (P : α → Prop) (f : α → β → α) :
    ∀ (l : List β) (init : α), P init → (∀ acc x, x ∈ l → P acc → P (f acc x)) →
      P (l.foldl f init) := by
  intro l
  induction l with
  | nil => intro init h _; exact h
  | cons x xs ih =>
    intro init h hstep
    exact ih _ (hstep init x (List.mem_cons_self _ _) h)
      (fun acc y hy hacc => hstep acc y (List.mem_cons_of_mem _ hy) hacc)

theorem cplen_le_left : ∀ xs ys : List Char, cplen xs ys ≤ xs.length := by
  intro xs
  induction xs with
  | nil => intro ys; cases ys <;> simp [cplen]
  | cons x xs ih =>
    intro ys
    cases ys with
    | nil => simp [cplen]
    | cons y ys =>
      by_cases h : x = y <;> simp [cplen, h]
      exact ih ys

theorem cplen_take : ∀ xs ys : List Char,
    xs.take (cplen xs ys) = ys.take (cplen xs ys) := by
  intro xs
  induction xs with
  | nil => intro ys; cases ys <;> simp [cplen]
  | cons x xs ih =>
    intro ys
    cases ys with
    | nil => simp [cplen]
    | cons y ys =>
      by_cases h : x = y <;> simp [cplen, h]
      exact ih ys

/-- The contract of `findLongestMatch`: a nonempty result is a genuine match
lying inside the search window. -/
theorem flm_spec (a b : List Char) (alo ahi blo bhi : Nat)
    (h : 0 < flmK a b alo ahi blo bhi) :
    alo ≤ flmI a b alo ahi blo bhi ∧
    flmI a b alo ahi blo bhi + flmK a b alo ahi blo bhi ≤ ahi ∧
    blo ≤ flmJ a b alo ahi blo bhi ∧
    flmJ a b alo ahi blo bhi + flmK a b alo ahi blo bhi ≤ bhi ∧
    ((a.take ahi).drop (flmI a b alo ahi blo bhi)).take (flmK a b alo ahi blo bhi) =
      ((b.take bhi).drop (flmJ a b alo ahi blo bhi)).take (flmK a b alo ahi blo bhi) := by
  have key : ∀ t : Nat × Nat × Nat, t = findLongestMatch a b alo ahi blo bhi →
      0 < t.2.2 →
      alo ≤ t.1 ∧ t.1 + t.2.2 ≤ ahi ∧ blo ≤ t.2.1 ∧ t.2.1 + t.2.2 ≤ bhi ∧
      ((a.take ahi).drop t.1).take t.2.2 = ((b.take bhi).drop t.2.1).take t.2.2 := by
    intro t ht
    rw [ht]
    unfold findLongestMatch
    apply foldl_invariant
      (P := fun t : Nat × Nat × Nat => 0 < t.2.2 →
        alo ≤ t.1 ∧ t.1 + t.2.2 ≤ ahi ∧ blo ≤ t.2.1 ∧ t.2.1 + t.2.2 ≤ bhi ∧
        ((a.take ahi).drop t.1).take t.2.2 = ((b.take bhi).drop t.2.1).take t.2.2)
    · intro h0; exact absurd h0 (by simp)
    · intro acc i hi hacc
      apply foldl_invariant
        (P := fun t : Nat × Nat × Nat => 0 < t.2.2 →
          alo ≤ t.1 ∧ t.1 + t.2.2 ≤ ahi ∧ blo ≤ t.2.1 ∧ t.2.1 + t.2.2 ≤ bhi ∧
          ((a.take ahi).drop t.1).take t.2.2 = ((b.take bhi).drop t.2.1).take t.2.2)
      · exact hacc
      · intro acc2 j hj hacc2
        by_cases hlt : acc2.2.2 < kLen a b ahi bhi i j
        · simp only [hlt, if_pos]
          intro _

          have hi' : alo ≤ i ∧ i < alo + (ahi - alo) := by
            have := List.mem_range'_1.mp hi
            exact this
          have hj' : blo ≤ j ∧ j < blo + (bhi - blo) := by
            have := List.mem_range'_1.mp hj
            exact this
          have hklea : kLen a b ahi bhi i j ≤ (a.take ahi).length - i := by
            have := cplen_le_left ((a.take ahi).drop i) ((b.take bhi).drop j)
            simpa [kLen] using this
          have hkleb : kLen a b ahi bhi i j ≤ (b.take bhi).length - j := by
            have h1 := cplen_take ((a.take ahi).drop i) ((b.take bhi).drop j)
            have h2 : cplen ((a.take ahi).drop i) ((b.take bhi).drop j) ≤
                ((b.take bhi).drop j).length := by
              have := congrArg List.length h1
              simp only [List.length_take] at this
              have hle := cplen_le_left ((a.take ahi).drop i) ((b.take bhi).drop j)
              omega
            simpa [kLen] using h2
          have hta : (a.take ahi).length ≤ ahi := by
            simp [List.length_take]
          have htb : (b.take bhi).length ≤ bhi := by
            simp [List.length_take]
          refine ⟨by omega, by omega, by omega, by omega, ?_⟩
          exact cplen_take ((a.take ahi).drop i) ((b.take bhi).drop j)
        · simp only [hlt, if_neg, ite_false]
          exact hacc2
  exact key _ rfl h

theorem chainFits_mono {a b : List Char} {x y x' y' X Y : Nat}
    {L : List (Nat × Nat × Nat)} (hx : x' ≤ x) (hy : y' ≤ y)
    (h : ChainFits a b x y L X Y) : ChainFits a b x' y' L X Y := by
  cases L with
  | nil => exact ⟨le_trans hx h.1, le_trans hy h.2⟩
  | cons hd tl =>
    obtain ⟨i, j, n⟩ := hd
    exact ⟨le_trans hx h.1, le_trans hy h.2.1, h.2.2⟩

theorem chainFits_append {a b : List Char} {x y u v X Y : Nat}
    {L₁ L₂ : List (Nat × Nat × Nat)}
    (h₁ : ChainFits a b x y L₁ u v) (h₂ : ChainFits a b u v L₂ X Y) :
    ChainFits a b x y (L₁ ++ L₂) X Y := by
  induction L₁ generalizing x y with
  | nil => exact chainFits_mono h₁.1 h₁.2 h₂
  | cons hd tl ih =>
    obtain ⟨i, j, n⟩ := hd
    exact ⟨h₁.1, h₁.2.1, h₁.2.2.1, ih h₁.2.2.2⟩

/-- The window match from `findLongestMatch` is a genuine full-list match. -/
theorem matchAt_of_window {a b : List Char} {ahi bhi i j k : Nat}
    (hia : i + k ≤ ahi) (hjb : j + k ≤ bhi)
    (h : ((a.take ahi).drop i).take k = ((b.take bhi).drop j).take k) :
    MatchAt a b i j k := by
  unfold MatchAt
  have ha : ((a.take ahi).drop i).take k = (a.drop i).take k := by
    rw [List.drop_take]
    rw [List.take_take]
    congr 1
    omega
  have hb : ((b.take bhi).drop j).take k = (b.drop j).take k := by
    rw [List.drop_take]
    rw [List.take_take]
    congr 1
    omega
  rw [← ha, ← hb, h]

theorem mbGo_fits (a b : List Char) :
    ∀ (fuel alo ahi blo bhi : Nat), alo ≤ ahi → blo ≤ bhi →
      (ahi - alo) + (bhi - blo) < fuel →
      ChainFits a b alo blo (mbGo a b fuel alo ahi blo bhi) ahi bhi := by
  intro fuel
  induction fuel with
  | zero =>
    intro alo ahi blo bhi h1 h2 h3
    exfalso
    omega
  | succ n ih =>
    intro alo ahi blo bhi h1 h2 h3
    show ChainFits a b alo blo (mbGo a b (n + 1) alo ahi blo bhi) ahi bhi
    rw [mbGo]
    split
    · rename_i h
      have hs := flm_spec a b alo ahi blo bhi h
      obtain ⟨s1, s2, s3, s4, s5⟩ := hs
      refine chainFits_append (u := flmI a b alo ahi blo bhi) (v := flmJ a b alo ahi blo bhi)
        (ih alo _ blo _ s1 s3 (by omega)) ?_
      refine ⟨le_refl _, le_refl _, matchAt_of_window s2 s4 s5, ?_⟩
      exact ih _ ahi _ bhi s2 s4 (by omega)
    · exact ⟨h1, h2⟩

theorem matchAt_zero (a b : List Char) (i j : Nat) : MatchAt a b i j 0 := by
  simp [MatchAt]

theorem matchAt_concat {a b : List Char} {i j k1 k2 : Nat}
    (h1 : MatchAt a b i j k1) (h2 : MatchAt a b (i + k1) (j + k1) k2) :
    MatchAt a b i j (k1 + k2) := by
  unfold MatchAt at *
  rw [List.take_add, List.take_add, List.drop_drop, List.drop_drop, h1, h2]

theorem mergeLoop_fits {a b : List Char} :
    ∀ (L : List (Nat × Nat × Nat)) (i1 j1 k1 x y X Y : Nat),
      x ≤ i1 → y ≤ j1 → MatchAt a b i1 j1 k1 →
      ChainFits a b (i1 + k1) (j1 + k1) L X Y →
      ChainFits a b x y (mergeLoop i1 j1 k1 L) X Y := by
  intro L
  induction L with
  | nil =>
    intro i1 j1 k1 x y X Y hx hy hm hc
    obtain ⟨hX, hY⟩ := hc
    unfold mergeLoop
    by_cases hk : k1 = 0
    · simp only [hk, if_pos]
      exact ⟨by omega, by omega⟩
    · simp only [hk, if_neg, ite_false]
      exact ⟨hx, hy, hm, by omega, by omega⟩
  | cons hd tl ih =>
    obtain ⟨i2, j2, k2⟩ := hd
    intro i1 j1 k1 x y X Y hx hy hm hc
    obtain ⟨h21, h22, hm2, hrest⟩ := hc
    unfold mergeLoop
    by_cases hadj : i1 + k1 = i2 ∧ j1 + k1 = j2
    · simp only [hadj, if_pos]
      apply ih i1 j1 (k1 + k2) x y X Y hx hy
      · apply matchAt_concat hm
        rw [hadj.1, hadj.2]
        exact hm2
      · have e1 : i1 + (k1 + k2) = i2 + k2 := by omega
        have e2 : j1 + (k1 + k2) = j2 + k2 := by omega
        rw [e1, e2]
        exact hrest
    · simp only [hadj, if_neg, ite_false]
      by_cases hk : k1 = 0
      · simp only [hk, if_pos, List.nil_append]
        apply ih i2 j2 k2 x y X Y (by omega) (by omega) hm2 hrest
      · simp only [hk, if_neg, ite_false]
        refine chainFits_append (u := i1 + k1) (v := j1 + k1)
          ⟨hx, hy, hm, le_refl _, le_refl _⟩ ?_
        exact ih i2 j2 k2 _ _ X Y h21 h22 hm2 hrest

theorem chain_to_precise {a b : List Char} :
    ∀ (L : List (Nat × Nat × Nat)) (x y X Y : Nat),
      ChainFits a b x y L X Y →
      PreciseChain a b x y (L ++ [(X, Y, 0)]) X Y := by
  intro L
  induction L with
  | nil =>
    intro x y X Y h
    exact ⟨h.1, h.2, matchAt_zero a b X Y, rfl, rfl⟩
  | cons hd tl ih =>
    obtain ⟨i, j, n⟩ := hd
    intro x y X Y h
    exact ⟨h.1, h.2.1, h.2.2.1, ih _ _ X Y h.2.2.2⟩

theorem preciseChain_y_le {a b : List Char} :
    ∀ (L : List (Nat × Nat × Nat)) (x y X Y : Nat),
      PreciseChain a b x y L X Y → y ≤ Y := by
  intro L
  induction L with
  | nil => intro x y X Y h; exact le_of_eq h.2
  | cons hd tl ih =>
    obtain ⟨i, j, n⟩ := hd
    intro x y X Y h
    have h1 := ih _ _ X Y h.2.2.2
    have h2 := h.2.1
    omega

theorem applyPatch_append (s : List Char) (l1 l2 : List DiffOp) :
    applyPatch s (l1 ++ l2) = applyPatch s l1 ++ applyPatch s l2 := by
  induction l1 with
  | nil => simp [applyPatch]
  | cons op rest ih => simp [applyPatch, ih]

theorem pySlice_self (l : List Char) (m : Nat) : pySlice l m m = [] := by
  apply List.drop_eq_nil_of_le
  simp [List.length_take]

theorem pySlice_eqseg (l : List Char) (i n : Nat) :
    pySlice l i (i + n) = (l.drop i).take n := by
  unfold pySlice
  rw [List.drop_take]
  congr 1
  omega

theorem glue_drop (w : List Char) (y m : Nat) (h : y ≤ m) :
    (w.take m).drop y ++ w.drop m = w.drop y := by
  conv_rhs => rw [← List.take_append_drop m w]
  rw [List.drop_append_eq_append_drop]
  congr 1
  by_cases hm : m ≤ w.length
  · have hl : (w.take m).length = m := by
      simp [List.length_take]
      omega
    rw [hl]
    have hy : y - m = 0 := by omega
    simp [hy]
  · have hd : w.drop m = [] := by
      apply List.drop_eq_nil_of_le
      omega
    simp [hd]

theorem pySlice_glue (l : List Char) (y m1 m2 : Nat) (h1 : y ≤ m1) (h2 : m1 ≤ m2) :
    pySlice l y m1 ++ pySlice l m1 m2 = pySlice l y m2 := by
  unfold pySlice
  have ht : l.take m1 = (l.take m2).take m1 := by
    rw [List.take_take]
    congr 1
    omega
  rw [ht]
  exact glue_drop (l.take m2) y m1 h1

/-- Applying the opcodes generated from a precise block chain reproduces the
target suffix `b[y:len(b)]`. -/
theorem opcodesLoop_apply (a b : List Char) :
    ∀ (L : List (Nat × Nat × Nat)) (x y : Nat),
      PreciseChain a b x y L a.length b.length →
      applyPatch a ((opcodesLoop x y L).map (opOfTagged a b)) = pySlice b y b.length := by
  intro L
  induction L with
  | nil =>
    intro x y h
    have hy : y = b.length := h.2
    subst hy
    simp [opcodesLoop, applyPatch, pySlice_self]
  | cons hd tl ih =>
    obtain ⟨ai, bj, size⟩ := hd
    intro x y h
    obtain ⟨hxa, hyb, hm, hrest⟩ := h
    have hbjn : bj + size ≤ b.length := preciseChain_y_le tl (ai + size) (bj + size) _ _ hrest
    unfold opcodesLoop
    rw [List.map_append, List.map_append, applyPatch_append, applyPatch_append]
    have hgap : applyPatch a ((if x < ai ∧ y < bj then [(OpTag.replace, x, ai, y, bj)]
        else if x < ai then [(OpTag.delete, x, ai, y, bj)]
        else if y < bj then [(OpTag.insert, x, ai, y, bj)]
        else []).map (opOfTagged a b)) = pySlice b y bj := by
      split_ifs with h1 h2 h3
      · simp [applyPatch, opOfTagged, opOutput]
      · have hnb : ¬ y < bj := fun hlt => h1 ⟨h2, hlt⟩
        have hybj : y = bj := by omega
        subst hybj
        simp [applyPatch, opOfTagged, opOutput, pySlice_self]
      · simp [applyPatch, opOfTagged, opOutput]
      · have hybj : y = bj := by omega
        subst hybj
        simp [applyPatch, opOfTagged, opOutput, pySlice_self]
    have heq : applyPatch a ((if size = 0 then []
        else [(OpTag.equal, ai, ai + size, bj, bj + size)]).map (opOfTagged a b)) =
        pySlice b bj (bj + size) := by
      split_ifs with h0
      · subst h0
        simp [applyPatch, pySlice_self]
      · simp [applyPatch, opOfTagged, opOutput]
        rw [pySlice_eqseg, pySlice_eqseg]
        exact hm
    rw [hgap, heq, ih _ _ hrest, List.append_assoc,
      pySlice_glue b bj (bj + size) b.length (by omega) hbjn]
    exact pySlice_glue b y bj b.length hyb (by omega)

/-- C1: for every pair of strings `A` and `B`, applying the patch generated
by `State.generate_patch` from `A` to `B` back onto `A` reconstructs `B`
exactly: `apply(generate_patch(A, B), A) == B`. -/
theorem generate_patch_apply_roundtrip (A B : List Char) :
    applyPatch A (generate_patch A B) = B := by
  have h1 : ChainFits A B 0 0 (mbGo A B (A.length + B.length + 1) 0 A.length 0 B.length)
      A.length B.length :=
    mbGo_fits A B (A.length + B.length + 1) 0 A.length 0 B.length
      (Nat.zero_le _) (Nat.zero_le _) (by omega)
  have h2 : ChainFits A B 0 0
      (mergeLoop 0 0 0 (mbGo A B (A.length + B.length + 1) 0 A.length 0 B.length))
      A.length B.length := by
    apply mergeLoop_fits _ 0 0 0 0 0 A.length B.length (le_refl _) (le_refl _)
      (matchAt_zero A B 0 0)
    simpa using h1
  have h3 : PreciseChain A B 0 0 (getMatchingBlocks A B) A.length B.length :=
    chain_to_precise _ 0 0 A.length B.length h2
  have h4 := opcodesLoop_apply A B (getMatchingBlocks A B) 0 0 h3
  unfold generate_patch getOpcodes
  rw [h4]
  unfold pySlice
  simp

theorem lookup_dictInsert_self {β : Type} (m : List (Int × β)) (k : Int) (v : β) :
    List.lookup k (dictInsert m k v) = some v := by
  simp [dictInsert, List.lookup]

theorem lookup_filter_ne {β : Type} (m : List (Int × β)) (k k' : Int) (h : k' ≠ k) :
    List.lookup k' (m.filter (fun p => !decide (p.1 = k))) = List.lookup k' m := by
  induction m with
  | nil => simp
  | cons p rest ih =>
    obtain ⟨pk, pv⟩ := p
    by_cases hpk : pk = k
    · subst hpk
      have : (k' == pk) = false := by simpa using h
      simp [List.lookup, this, ih]
    · by_cases hk' : k' = pk
      · subst hk'
        simp [List.lookup, hpk]
      · have : (k' == pk) = false := by simpa using hk'
        simp [List.lookup, this, hpk, ih]

theorem lookup_dictInsert_ne {β : Type} (m : List (Int × β)) (k k' : Int)
    (v : β) (h : k' ≠ k) :
    List.lookup k' (dictInsert m k v) = List.lookup k' m := by
  have : (k' == k) = false := by simpa using h
  simp [dictInsert, List.lookup, this]
  exact lookup_filter_ne m k k' h

theorem sent_wf (t : InflightTracker) (n : Int) (d : Option Int)
    (hw : WellFormed t) (hf : ∀ k ∈ t.inflight_state_numbers, k < n) :
    WellFormed (sent t n d) := by
  obtain ⟨hs, hn, hl, hp⟩ := hw
  have hperm : (slAdd t.inflight_state_numbers n).Perm (n :: t.inflight_state_numbers) :=
    List.perm_orderedInsert _ _ _
  have hnotmem : n ∉ t.inflight_state_numbers := by
    intro hmem
    have := hf n hmem
    omega
  refine ⟨?_, ?_, ?_, ?_⟩
  · exact hs.orderedInsert n _
  · exact hperm.nodup_iff.mpr (hn.cons hnotmem)
  · intro k hk
    have hk' : k ∈ n :: t.inflight_state_numbers := hperm.mem_iff.mp hk
    rcases List.mem_cons.mp hk' with hkn | hkm
    · subst hkn
      simp [sent, lookup_dictInsert_self]
    · have hne : k ≠ n := fun he => hnotmem (he ▸ hkm)
      have := hl k hkm
      simpa [sent, lookup_dictInsert_ne _ _ _ _ hne] using this
  · have hcongr : (t.inflight_state_numbers.filterMap (depOf (sent t n d))) =
        t.inflight_state_numbers.filterMap (depOf t) := by
      apply List.filterMap_congr
      intro k hk
      have hne : k ≠ n := fun he => hnotmem (he ▸ hk)
      simp [depOf, sent, lookup_dictInsert_ne _ _ _ _ hne]
    have hfm : ((sent t n d).inflight_state_numbers.filterMap (depOf (sent t n d))).Perm
        ((n :: t.inflight_state_numbers).filterMap (depOf (sent t n d))) := by
      exact List.Perm.filterMap _ hperm
    have hdn : depOf (sent t n d) n = d := by
      simp [depOf, sent, lookup_dictInsert_self]
    refine List.Perm.symm (hfm.trans ?_)
    rw [List.filterMap_cons, hdn, hcongr]
    cases d with
    | none =>
      simpa [sent] using hp.symm
    | some dv =>
      simp only [sent]
      refine List.Perm.trans ?_ (List.perm_orderedInsert _ _ _).symm
      exact (hp.symm.cons dv)

/-- On a sorted duplicate-free list containing `S`, popping
`bisect_left(S) + 1` elements from the front removes exactly the entries
`≤ S` and leaves exactly the entries `> S`. -/
theorem sorted_mem_decomp (S : Int) :
    ∀ l : List Int, l.Sorted (· ≤ ·) → l.Nodup → S ∈ l →
      bisectLeft l S + 1 ≤ l.length ∧
      l.take (bisectLeft l S + 1) = l.filter (fun k => decide (k ≤ S)) ∧
      l.drop (bisectLeft l S + 1) = l.filter (fun k => decide (S < k)) := by
  intro l
  induction l with
  | nil => intro _ _ hm; simp at hm
  | cons x xs ih =>
    intro hs hn hm
    have hall : ∀ y ∈ xs, x ≤ y := (List.sorted_cons.mp hs).1
    have hs' : xs.Sorted (· ≤ ·) := (List.sorted_cons.mp hs).2
    have hn' : xs.Nodup := hn.of_cons
    have hxnot : x ∉ xs := (List.nodup_cons.mp hn).1
    rcases lt_trichotomy x S with hx | hx | hx
    · have hmx : S ∈ xs := by
        rcases List.mem_cons.mp hm with he | h'
        · exfalso; omega
        · exact h'
      obtain ⟨ih1, ih2, ih3⟩ := ih hs' hn' hmx
      have hb : bisectLeft (x :: xs) S = bisectLeft xs S + 1 := by
        simp [bisectLeft, List.countP_cons, hx]
      refine ⟨by simp [hb]; omega, ?_, ?_⟩
      · rw [hb]
        show x :: xs.take (bisectLeft xs S + 1) = List.filter _ (x :: xs)
        rw [ih2]
        have : decide (x ≤ S) = true := by simp; omega
        simp [List.filter_cons, this]
      · rw [hb]
        show xs.drop (bisectLeft xs S + 1) = List.filter _ (x :: xs)
        rw [ih3]
        have : decide (S < x) = false := by simp; omega
        simp [List.filter_cons, this]
    · subst hx
      have hgt : ∀ y ∈ xs, x < y := by
        intro y hy
        have h1 := hall y hy
        have h2 : y ≠ x := fun he => hxnot (he ▸ hy)
        omega
      have hb : bisectLeft (x :: xs) x = 0 := by
        have hz : xs.countP (fun y => decide (y < x)) = 0 := by
          apply List.countP_eq_zero.mpr
          intro y hy
          have := hgt y hy
          simp
          omega
        simp [bisectLeft, List.countP_cons, hz]
      refine ⟨by simp [hb], ?_, ?_⟩
      · rw [hb]
        have hfe : xs.filter (fun k => decide (k ≤ x)) = [] := by
          apply List.filter_eq_nil.mpr
          intro y hy
          have := hgt y hy
          simp
          omega
        simp [List.filter_cons, hfe]
      · rw [hb]
        have hfa : xs.filter (fun k => decide (x < k)) = xs := by
          apply List.filter_eq_self.mpr
          intro y hy
          have := hgt y hy
          simpa
        simp [List.filter_cons, hfa]
    · exfalso
      rcases List.mem_cons.mp hm with he | h'
      · omega
      · have := hall S h'
        omega

/-- If every popped state has a dictionary entry and the dependency list is
(as a multiset) the popped states' dependencies plus a remainder `g`, then
the removal loop succeeds and returns exactly `g`. -/
theorem removeDeps_spec (deps : List (Int × Option Int)) :
    ∀ (rm infDeps g : List Int),
      (∀ k ∈ rm, (List.lookup k deps).isSome) →
      infDeps.Perm (rm.filterMap (fun k => (List.lookup k deps).join) ++ g) →
      ∃ res, removeDeps deps infDeps rm = some res ∧ res.Perm g := by
  intro rm
  induction rm with
  | nil =>
    intro infDeps g _ hp
    exact ⟨infDeps, rfl, by simpa using hp⟩
  | cons k rest ih =>
    intro infDeps g hl hp
    have hk := hl k (List.mem_cons_self _ _)
    cases hlk : List.lookup k deps with
    | none => rw [hlk] at hk; simp at hk
    | some v =>
      cases v with
      | none =>
        have hfm : List.filterMap (fun k => (List.lookup k deps).join) (k :: rest) =
            List.filterMap (fun k => (List.lookup k deps).join) rest := by
          simp [List.filterMap_cons, hlk, Option.join]
        rw [hfm] at hp
        have hres := ih infDeps g (fun k' h' => hl k' (List.mem_cons_of_mem _ h')) hp
        obtain ⟨res, hr, hp2⟩ := hres
        refine ⟨res, ?_, hp2⟩
        simp only [removeDeps, hlk]
        exact hr
      | some d =>
        have hfm : List.filterMap (fun k => (List.lookup k deps).join) (k :: rest) =
            d :: List.filterMap (fun k => (List.lookup k deps).join) rest := by
          simp [List.filterMap_cons, hlk, Option.join]
        rw [hfm] at hp
        have hdm : d ∈ infDeps := hp.mem_iff.mpr (by simp)
        have hperm' : (infDeps.erase d).Perm
            (rest.filterMap (fun k => (List.lookup k deps).join) ++ g) := by
          have he := hp.erase d
          simpa [List.erase_cons_head] using he
        obtain ⟨res, hr, hp2⟩ :=
          ih _ g (fun k' h' => hl k' (List.mem_cons_of_mem _ h')) hperm'
        refine ⟨res, ?_, hp2⟩
        simp only [removeDeps, hlk]
        rw [if_pos hdm]
        exact hr

/-- Whenever the inflight list is long enough for the pop loop, `acked`
on a well-formed tracker succeeds; the result drops the first
`bisect_left + 1` inflight entries, keeps the dependency dict, assigns
`highest_ack := S`, and remains well-formed. -/
theorem acked_some_spec (t : InflightTracker) (S : Int) (hw : WellFormed t)
    (hlen : bisectLeft t.inflight_state_numbers S + 1 ≤ t.inflight_state_numbers.length) :
    ∃ t', acked t S = some t' ∧
      t'.inflight_state_numbers =
        t.inflight_state_numbers.drop (bisectLeft t.inflight_state_numbers S + 1) ∧
      t'.dependencies = t.dependencies ∧
      t'.highest_ack = S ∧
      t'.inflight_dependencies.Perm
        ((t.inflight_state_numbers.drop (bisectLeft t.inflight_state_numbers S + 1)).filterMap
          (depOf t)) ∧
      WellFormed t' := by
  obtain ⟨hs, hn, hl, hp⟩ := hw
  have hsplit := (List.take_append_drop (bisectLeft t.inflight_state_numbers S + 1)
    t.inflight_state_numbers).symm
  have hpd : t.inflight_dependencies.Perm
      ((t.inflight_state_numbers.take (bisectLeft t.inflight_state_numbers S + 1)).filterMap
        (depOf t) ++
       (t.inflight_state_numbers.drop (bisectLeft t.inflight_state_numbers S + 1)).filterMap
        (depOf t)) := by
    have hthis := hp
    rw [hsplit, List.filterMap_append] at hthis
    simpa using hthis
  obtain ⟨res, hrd, hresp⟩ := removeDeps_spec t.dependencies
    (t.inflight_state_numbers.take (bisectLeft t.inflight_state_numbers S + 1))
    t.inflight_dependencies
    ((t.inflight_state_numbers.drop (bisectLeft t.inflight_state_numbers S + 1)).filterMap
      (depOf t))
    (fun k hk => hl k (List.take_subset _ _ hk))
    hpd
  have hacked : acked t S =
      some ⟨t.inflight_state_numbers.drop (bisectLeft t.inflight_state_numbers S + 1),
        t.dependencies, res, S⟩ := by
    unfold acked
    rw [if_neg (by omega)]
    rw [hrd]
  refine ⟨_, hacked, rfl, rfl, rfl, hresp, ?_, ?_, ?_, ?_⟩
  · exact List.Pairwise.sublist (List.drop_sublist _ _) hs
  · exact hn.sublist (List.drop_sublist _ _)
  · intro k hk
    exact hl k (List.drop_subset _ _ hk)
  · exact hresp

/-- When the pop loop would outrun the inflight list, `acked` crashes
with `IndexError`. -/
theorem acked_none_of_short (t : InflightTracker) (S : Int)
    (h : t.inflight_state_numbers.length < bisectLeft t.inflight_state_numbers S + 1) :
    acked t S = none := by
  unfold acked
  rw [if_pos h]

/-- Every tracker state reachable through the protocol is well-formed; in
particular `inflight_dependencies` is always exactly the multiset of
dependencies of the currently inflight states. -/
theorem reachable_wf {t : InflightTracker} (h : Reachable t) : WellFormed t := by
  induction h with
  | init =>
    refine ⟨by simp [initTracker], by simp [initTracker], ?_, by simp [initTracker]⟩
    intro k hk
    simp [initTracker] at hk
  | sent t n d hr hf ih => exact sent_wf t n d ih hf
  | acked t t' s hr heq ih =>
    by_cases hlen : bisectLeft t.inflight_state_numbers s + 1 ≤ t.inflight_state_numbers.length
    · obtain ⟨t'', heq', _, _, _, _, hwf⟩ := acked_some_spec t s ih hlen
      rw [heq] at heq'
      injection heq' with he
      exact he ▸ hwf
    · rw [acked_none_of_short t s (by omega)] at heq
      exact absurd heq (by simp)

/-- C3 (amended): on every reachable tracker, for every state number `S`
currently in flight, `acked(S)` succeeds and removes exactly the inflight
entries `k ≤ S`, removing one matching occurrence of `dep[k]` from
`inflight_deps` for each removed `k` with a non-`None` dependency;
afterwards no inflight state `≤ S` remains and `inflight_deps` is exactly
the multiset of dependencies of the currently-inflight states. -/
theorem inflight_acked_removes_exactly (t : InflightTracker) (S : Int)
    (hr : Reachable t) (hm : S ∈ t.inflight_state_numbers) :
    ∃ t', acked t S = some t' ∧
      t'.inflight_state_numbers =
        t.inflight_state_numbers.filter (fun k => decide (S < k)) ∧
      (∀ k ∈ t'.inflight_state_numbers, ¬ k ≤ S) ∧
      t.inflight_dependencies.Perm
        ((t.inflight_state_numbers.filter (fun k => decide (k ≤ S))).filterMap (depOf t) ++
          t'.inflight_dependencies) ∧
      t'.inflight_dependencies.Perm
        (t'.inflight_state_numbers.filterMap (depOf t')) := by
  have hw := reachable_wf hr
  obtain ⟨hs, hn, hl, hp⟩ := hw
  obtain ⟨hlen, htake, hdrop⟩ := sorted_mem_decomp S _ hs hn hm
  obtain ⟨t', ha, hinf, hdeps, hha, hperm, hwf'⟩ :=
    acked_some_spec t S ⟨hs, hn, hl, hp⟩ hlen
  refine ⟨t', ha, ?_, ?_, ?_, ?_⟩
  · rw [hinf, hdrop]
  · intro k hk
    rw [hinf, hdrop] at hk
    have hmem := List.mem_filter.mp hk
    have : S < k := by simpa using hmem.2
    omega
  · have hsplit := (List.take_append_drop
      (bisectLeft t.inflight_state_numbers S + 1) t.inflight_state_numbers).symm
    have hpd : t.inflight_dependencies.Perm
        ((t.inflight_state_numbers.take (bisectLeft t.inflight_state_numbers S + 1)).filterMap
          (depOf t) ++
        (t.inflight_state_numbers.drop (bisectLeft t.inflight_state_numbers S + 1)).filterMap
          (depOf t)) := by
      have hthis := hp
      rw [hsplit, List.filterMap_append] at hthis
      simpa using hthis
    rw [htake] at hpd
    refine hpd.trans (List.Perm.append_left _ ?_)
    exact hperm.symm
  · exact hwf'.2.2.2

/-- C3 counterexample: on the reachable tracker with inflight list `[1]`,
`acked(0)` pops state 1 even though `1 > 0` — it does not remove exactly
the entries `≤ 0` (which would leave `[1]` unchanged). -/
theorem acked_pops_state_above_ack :
    (acked (sent initTracker 1 none) 0).map (fun t => t.inflight_state_numbers) =
      some [] ∧
    ¬ (acked (sent initTracker 1 none) 0).map (fun t => t.inflight_state_numbers) =
      some [1] := by
  constructor
  · rfl
  · decide

/-- C3 witness: the amended theorem applied to the concrete reachable
tracker holding inflight state 1, acknowledged with `S = 1`. -/
theorem inflight_acked_removes_exactly_witness :
    ∃ t', acked (sent initTracker 1 none) 1 = some t' ∧
      t'.inflight_state_numbers =
        (sent initTracker 1 none).inflight_state_numbers.filter
          (fun k => decide ((1 : Int) < k)) ∧
      (∀ k ∈ t'.inflight_state_numbers, ¬ k ≤ 1) ∧
      (sent initTracker 1 none).inflight_dependencies.Perm
        (((sent initTracker 1 none).inflight_state_numbers.filter
            (fun k => decide (k ≤ 1))).filterMap (depOf (sent initTracker 1 none)) ++
          t'.inflight_dependencies) ∧
      t'.inflight_dependencies.Perm
        (t'.inflight_state_numbers.filterMap (depOf t')) :=
  inflight_acked_removes_exactly (sent initTracker 1 none) 1
    (Reachable.sent initTracker 1 none Reachable.init (by decide)) (by decide)

/-- C4: evaluation of `InflightTracker.acked` at the failing inputs.  First
run: after `sent(1, None); acked(1); sent(2, 1)`, a duplicate `acked(1)`
(with `1 ≤ highest_ack = 1`) pops the still-unacknowledged state 2 and its
dependency — the tracker is not left unchanged, so `acked` is not
idempotent for `S ≤ highest_ack`.  Second run: after
`sent 1,2,3; acked(3); sent(4, 3)`, the late `acked(1)` drives
`highest_ack` from 3 back down to 1 — the code assigns
`highest_ack = state_number` rather than a `max`, so `highest_ack` can
decrease. -/
theorem acked_stale_not_idempotent :
    ((do
      let t1 := sent initTracker 1 none
      let t2 ← acked t1 1
      let t3 := sent t2 2 (some 1)
      let t4 ← acked t3 1
      pure (t3.inflight_state_numbers, t3.highest_ack,
        t4.inflight_state_numbers, t4.highest_ack)) =
      some ([2], 1, [], 1)) ∧
    ((do
      let u1 := sent (sent (sent initTracker 1 none) 2 (some 1)) 3 (some 2)
      let u2 ← acked u1 3
      let u3 := sent u2 4 (some 3)
      let u4 ← acked u3 1
      pure (u2.highest_ack, u4.highest_ack)) = some (3, 1)) := by
  constructor
  · rfl
  · rfl

theorem generate_patch_nil : generate_patch [] [] = [] := rfl

/-- C5: processing an instruction increments `total_packets_received`; when
`old_num` is stored, the diff is applied to that state, the result is
stored under `new_num`, `highest_received` becomes
`max(highest_received, new_num)`, and the acknowledgment instruction
`(0, 0, new_num, new_num, empty_diff)` is sent; when `old_num` is not
stored, `packets_discarded` increments and no acknowledgment is sent.
(The receiver's state 0 is the empty state and `new_num ≠ 0`, as in every
protocol exchange, so the ack diff is the empty patch.) -/
theorem receiver_on_receive_spec (r : ReceiverState) (ins : Instr) (s0 : MoshState)
    (h0 : List.lookup 0 r.states = some s0) (h0e : s0.string = [])
    (hnz : ins.new_num ≠ 0) :
    (∀ st, List.lookup ins.old_num r.states = some st →
      on_receive r ins = some
        ({ states := dictInsert r.states ins.new_num (stateApply st ins.diff r.ctr).1,
           highest_received := max r.highest_received ins.new_num,
           total_packets_received := r.total_packets_received + 1,
           packets_discarded := r.packets_discarded,
           ctr := (stateApply st ins.diff r.ctr).2 },
         some ⟨0, 0, ins.new_num, ins.new_num, []⟩) ∧
      List.lookup ins.new_num
          (dictInsert r.states ins.new_num (stateApply st ins.diff r.ctr).1) =
        some (stateApply st ins.diff r.ctr).1 ∧
      (stateApply st ins.diff r.ctr).1.string = applyPatch st.string ins.diff) ∧
    (List.lookup ins.old_num r.states = none →
      on_receive r ins = some
        ({ r with
           total_packets_received := r.total_packets_received + 1,
           packets_discarded := r.packets_discarded + 1 }, none)) := by
  constructor
  · intro st hst
    have hz : (0 : Int) ≠ ins.new_num := fun he => hnz he.symm
    have hlk : List.lookup 0 (dictInsert r.states ins.new_num
        (stateApply st ins.diff r.ctr).1) = some s0 := by
      rw [lookup_dictInsert_ne _ _ _ _ hz]
      exact h0
    refine ⟨?_, ?_, rfl⟩
    · simp only [on_receive, hst, hlk, h0e, generate_patch_nil]
    · exact lookup_dictInsert_self _ _ _
  · intro hst
    unfold on_receive
    rw [hst]

/-- C5 witness: the receiver step theorem applied to the initial receiver
and the instruction `(old 0, new 1, insert "abc")`. -/
theorem receiver_on_receive_spec_witness :
    on_receive initReceiver ⟨0, 1, 1, 1, [DiffOp.insert 0 3 "abc".toList]⟩ =
      some (⟨[(1, ⟨"abc".toList, 2, none⟩), (0, ⟨[], 1, none⟩)], 1, 1, 0, 3⟩,
        some ⟨0, 0, 1, 1, []⟩) :=
  ((receiver_on_receive_spec initReceiver ⟨0, 1, 1, 1, [DiffOp.insert 0 3 "abc".toList]⟩
    ⟨[], 1, none⟩ rfl rfl (by decide)).1 ⟨[], 1, none⟩ rfl).1

/-- C9 counterexample: applying a patch whose only opcode carries the
unknown tag "bogus" to the state "abc" does not fail — `State.apply`
dispatches on the tag with `if`/`elif` branches and has no `else`, and no
`MalformedDiff` error exists anywhere in the source — it returns a result
state (here the empty string, as no recognized opcode contributed
output). -/
theorem apply_unknown_tag_returns_state :
    stateApply ⟨"abc".toList, 1, none⟩ [DiffOp.other "bogus".toList []] 5 =
      (⟨[], 5, none⟩, 6) := rfl

/-- C9 (amended): an opcode whose tag is not one of `equal`, `delete`,
`insert`, `replace` is silently skipped by `State.apply`: it contributes
nothing to the result and application proceeds over the remaining opcodes
without failing. -/
theorem apply_skips_unknown_tag (source tag : List Char) (fields : List Nat)
    (ops : List DiffOp)
    (h : tag ∉ ["equal".toList, "delete".toList, "insert".toList, "replace".toList]) :
    applyPatch source (DiffOp.other tag fields :: ops) = applyPatch source ops := by
  simp [applyPatch, opOutput]

/-- C9 witness: the skip theorem applied to the source "abc", the unknown
tag "bogus", and a following `equal` opcode. -/
theorem apply_skips_unknown_tag_witness :
    "bogus".toList ∉
        ["equal".toList, "delete".toList, "insert".toList, "replace".toList] ∧
    applyPatch "abc".toList
        (DiffOp.other "bogus".toList [] :: [DiffOp.equal 0 2 0 2]) =
      applyPatch "abc".toList [DiffOp.equal 0 2 0 2] :=
  ⟨by decide, apply_skips_unknown_tag "abc".toList "bogus".toList [] [DiffOp.equal 0 2 0 2]
    (by decide)⟩

/-- C10: every `State` construction — including each state built by
`State.apply` on the receiver side — draws its `num` from the single
global counter `State.curr_stateno`, which increments by one per
construction; consequently the `num` of the state the receiver stores
under `instruction.new_num` is the counter value at construction time and
in general differs from `new_num`: in the concrete run below the receiver
stores under key 1 a state whose `num` is 2. -/
theorem state_numbers_from_global_counter :
    (∀ (s : List Char) (c : Nat), (mkState s c).1.num = c ∧ (mkState s c).2 = c + 1) ∧
    (∀ (st : MoshState) (p : List DiffOp) (c : Nat),
      (stateApply st p c).1.num = c ∧ (stateApply st p c).2 = c + 1) ∧
    (∃ pair, on_receive initReceiver ⟨0, 1, 1, 1, [DiffOp.insert 0 1 ['x']]⟩ = some pair ∧
      List.lookup 1 pair.1.states = some ⟨['x'], 2, none⟩ ∧ (2 : Nat) ≠ 1) :=
  ⟨fun _ _ => ⟨rfl, rfl⟩, fun _ _ _ => ⟨rfl, rfl⟩, ⟨_, rfl, rfl, by decide⟩⟩

/-- C6 counterexample: the first `send_state` of a fresh sender emits
`throwaway_num = 0` (no inflight dependency, `highest_ack = 0`), while
the claimed formula `min(0, known − 1, +∞ − 1)` yields −1; and after
`acked(5)` with nothing left in flight, `send_state` emits
`throwaway_num = 5 > 0`, contradicting the claim's "always ≤ 0". -/
theorem send_state_throwaway_counterexample :
    (send_state initSender ⟨['h'], 1, none⟩).2.throwaway_num = 0 ∧
    specThrowaway 0 none = -1 ∧
    (∃ tr, acked (sent initTracker 5 none) 5 = some tr ∧
      (send_state ⟨tr, some ⟨['h'], 1, none⟩⟩ ⟨['i'], 6, none⟩).2.throwaway_num = 5) :=
  ⟨rfl, rfl, ⟨_, rfl, rfl⟩⟩

/-- C6 (amended): every instruction emitted by `Sender.send_state` carries
`throwaway_num = min_inflight_dep − 1` when some dependency is in flight
and `max(highest_ack, 0)` otherwise (the code's
`highest_ack if highest_ack >= 0 else 0`); the emitted `ack_num` is
`max(highest_ack, 0)`.  The value is not clamped below 0 by any
`min(0, …)` and can be positive. -/
theorem send_state_throwaway_formula (sd : MoshSender) (st : MoshState) :
    (send_state sd st).2.throwaway_num =
      (match min_inflight_dependency sd.inflight with
       | some m => m - 1
       | none => max sd.inflight.highest_ack 0) ∧
    (send_state sd st).2.ack_num = max sd.inflight.highest_ack 0 := by
  have hmax : (if sd.inflight.highest_ack ≥ 0 then sd.inflight.highest_ack else 0) =
      max sd.inflight.highest_ack 0 := by
    split <;> omega
  constructor
  · simp only [send_state, hmax]
  · simp only [send_state, hmax]

/-- C7 counterexample: a transporter that has never received a packet
sends `ts_reply = now_ms & 0xFFFF`, not 0: at `now_ms = 5` the emitted
`ts_reply` is 5. -/
theorem ts_reply_nonzero_before_first_receive :
    (transpSend initTransp 5 ⟨0, 1, 0, 0, WireDiff.raw []⟩).2.ts_reply = 5 ∧
    ¬ (transpSend initTransp 5 ⟨0, 1, 0, 0, WireDiff.raw []⟩).2.ts_reply = 0 := by
  constructor
  · rfl
  · decide

/-- C7 (amended): an outgoing packet carries `ts_reply` equal to the most
recently received peer `ts` when one has been received and it is nonzero;
before any packet has been received — or when the last received `ts` is
0 — it carries `now_ms & 0xFFFF` evaluated at send time instead of 0. -/
theorem ts_reply_formula (t : Transp) (now_ms : Nat) (ins : SendInstr) :
    ((transpSend t now_ms ins).2.ts_reply =
      match t.last_timestamp with
      | some v => if v = 0 then timeToInt now_ms else v
      | none => timeToInt now_ms) ∧
    (∀ τ, τ ≠ 0 → (transpSend (transpRecvNote t τ) now_ms ins).2.ts_reply = τ) := by
  constructor
  · rfl
  · intro τ hτ
    simp [transpSend, transpRecvNote, hτ]

/-- C7 witness: after receiving a packet with `ts = 9`, the next send
echoes `ts_reply = 9`. -/
theorem ts_reply_formula_witness :
    (transpSend (transpRecvNote initTransp 9) 7 ⟨0, 1, 0, 0, WireDiff.raw []⟩).2.ts_reply = 9 :=
  (ts_reply_formula initTransp 7 ⟨0, 1, 0, 0, WireDiff.raw []⟩).2 9 (by decide)

/-- C8 counterexample: packing `Packet(True, 7, 10, 5, −50, b"abc")`
places the low byte of the two's-complement 16-bit signal field at offset
13 (0xCE = 206) and the first payload byte `'a'` (97) at offset 14; were
the header 13 bytes with an i8 signal at offset 12, offset 13 would hold
97.  The whole datagram is 14 + 3 bytes. -/
theorem pack_signal_two_bytes :
    (pack ⟨true, 7, 10, 5, -50, [97, 98, 99]⟩).map
      (fun bs => (bs.get? 12, bs.get? 13, bs.get? 14, bs.length)) =
      some (some 255, some 206, some 97, 17) := by
  rfl

theorem toBE_length (w n : Nat) : (toBE w n).length = w := by
  induction w generalizing n with
  | zero => rfl
  | succ w ih => simp [toBE, ih]

theorem fromBE_toBE (w : Nat) :
    ∀ n : Nat, n < 256 ^ w → fromBE (toBE w n) = n := by
  induction w with
  | zero =>
    intro n h
    simp [pow_zero] at h
    simp [h, toBE, fromBE]
  | succ w ih =>
    intro n h
    have hdiv : n / 256 < 256 ^ w := by
      rw [Nat.div_lt_iff_lt_mul (by norm_num)]
      calc n < 256 ^ (w + 1) := h
        _ = 256 ^ w * 256 := by ring
    show fromBE (toBE w (n / 256) ++ [n % 256]) = n
    unfold fromBE
    rw [List.foldl_append]
    show fromBE (toBE w (n / 256)) * 256 + n % 256 = n
    rw [ih _ hdiv]
    omega

/-- C8 (amended): for every valid packet (`seq < 2^63`, 16-bit timestamps,
`−127 ≤ signal_dbm ≤ 0`), `pack` produces big-endian bytes with a 14-byte
header in which `signal_strength_dbm` occupies a signed 16-bit field at
offsets 12–13 and the payload begins at offset 14; `unpack` reads the same
layout, so `unpack (pack p) = p`. -/
theorem pack_unpack_roundtrip (p : Packet)
    (h1 : p.seq < 2 ^ 63) (h2 : p.ts ≤ 0xFFFF) (h3 : p.ts_reply ≤ 0xFFFF)
    (h4 : -127 ≤ p.signal_strength_dbm) (h5 : p.signal_strength_dbm ≤ 0) :
    ∃ bs, pack p = some bs ∧ bs.length = 14 + p.payload.length ∧
      bs.drop 14 = p.payload ∧ unpack bs = some p := by
  obtain ⟨pd, pseq, pts, ptsr, psig, ppay⟩ := p
  simp only at h1 h2 h3 h4 h5
  have h63 : (2 : Nat) ^ 63 = 9223372036854775808 := by norm_num
  have h652 : (256 : Nat) ^ 2 = 65536 := by norm_num
  have h658 : (256 : Nat) ^ 8 = 18446744073709551616 := by norm_num
  set nonce := (if pd then 1 else 0) * 2 ^ 63 + pseq with hnonce
  set sigE := (psig % 65536).toNat with hsigE
  have hsigErange : sigE < 65536 ∧
      (psig < 0 → (sigE : Int) = psig + 65536) ∧ (0 ≤ psig → (sigE : Int) = psig) := by
    have he1 : (0 : Int) ≤ psig % 65536 := Int.emod_nonneg _ (by norm_num)
    have he2 : psig % 65536 < 65536 := Int.emod_lt_of_pos _ (by norm_num)
    have he3 : (sigE : Int) = psig % 65536 := Int.toNat_of_nonneg he1
    refine ⟨by omega, ?_, ?_⟩ <;> intro hc <;> omega
  set bs := toBE 8 nonce ++ (toBE 2 (pts % 65536) ++
    (toBE 2 ptsr ++ (toBE 2 sigE ++ ppay))) with hbs
  have hpack : pack ⟨pd, pseq, pts, ptsr, psig, ppay⟩ = some bs := by
    unfold pack
    rw [if_neg (by simpa using h1), if_neg (by simpa using h3),
      if_neg (not_not_intro ⟨h4, h5⟩)]
  have l8 : (toBE 8 nonce).length = 8 := toBE_length 8 nonce
  have l2a : (toBE 2 (pts % 65536)).length = 2 := toBE_length 2 _
  have l2b : (toBE 2 ptsr).length = 2 := toBE_length 2 _
  have l2c : (toBE 2 sigE).length = 2 := toBE_length 2 _
  have hlen : bs.length = 14 + ppay.length := by
    simp [hbs, l8, l2a, l2b, l2c]
    omega
  have ht8 : bs.take 8 = toBE 8 nonce := by
    rw [hbs, ← l8]
    exact List.take_left _ _
  have hd8 : bs.drop 8 = toBE 2 (pts % 65536) ++ (toBE 2 ptsr ++ (toBE 2 sigE ++ ppay)) := by
    rw [hbs, ← l8]
    exact List.drop_left _ _
  have hd10 : bs.drop 10 = toBE 2 ptsr ++ (toBE 2 sigE ++ ppay) := by
    have hdd : bs.drop 10 = (bs.drop 8).drop 2 := by
      rw [List.drop_drop]
    rw [hdd, hd8, ← l2a]
    exact List.drop_left _ _
  have hd12 : bs.drop 12 = toBE 2 sigE ++ ppay := by
    have hdd : bs.drop 12 = (bs.drop 10).drop 2 := by
      rw [List.drop_drop]
    rw [hdd, hd10, ← l2b]
    exact List.drop_left _ _
  have hd14 : bs.drop 14 = ppay := by
    have hdd : bs.drop 14 = (bs.drop 12).drop 2 := by
      rw [List.drop_drop]
    rw [hdd, hd12, ← l2c]
    exact List.drop_left _ _
  have ht2a : (bs.drop 8).take 2 = toBE 2 (pts % 65536) := by
    rw [hd8, ← l2a]
    exact List.take_left _ _
  have ht2b : (bs.drop 10).take 2 = toBE 2 ptsr := by
    rw [hd10, ← l2b]
    exact List.take_left _ _
  have ht2c : (bs.drop 12).take 2 = toBE 2 sigE := by
    rw [hd12, ← l2c]
    exact List.take_left _ _
  have hv8 : fromBE (bs.take 8) = nonce := by
    rw [ht8]
    refine fromBE_toBE 8 nonce ?_
    rw [hnonce]
    split <;> omega
  have hvts : fromBE ((bs.drop 8).take 2) = pts := by
    rw [ht2a, fromBE_toBE 2 _ (by omega), Nat.mod_eq_of_lt (by omega)]
  have hvtsr : fromBE ((bs.drop 10).take 2) = ptsr := by
    rw [ht2b, fromBE_toBE 2 _ (by omega)]
  have hvsig : fromBE ((bs.drop 12).take 2) = sigE := by
    rw [ht2c, fromBE_toBE 2 _ (by omega)]
  refine ⟨bs, hpack, hlen, hd14, ?_⟩
  unfold unpack
  rw [if_neg (by omega)]
  rw [hv8, hvts, hvtsr, hvsig, hd14]
  have hdir : decide ((nonce / 2 ^ 63) % 2 = 1) = pd := by
    rw [hnonce]
    cases pd <;> simp <;> omega
  have hseq : nonce % 2 ^ 63 = pseq := by
    rw [hnonce]
    split <;> omega
  have hsigdec : (if 32768 ≤ sigE then (sigE : Int) - 65536 else (sigE : Int)) = psig := by
    obtain ⟨hr1, hr2, hr3⟩ := hsigErange
    split <;> rename_i hc
    · rcases lt_or_ge psig 0 with hneg | hpos
      · have := hr2 hneg
        omega
      · have := hr3 hpos
        omega
    · rcases lt_or_ge psig 0 with hneg | hpos
      · have := hr2 hneg
        have : (65409 : Int) ≤ (sigE : Int) := by omega
        omega
      · have := hr3 hpos
        omega
  rw [hdir, hseq, hsigdec]

/-- C8 witness: the round-trip theorem applied to
`Packet(True, 7, 10, 5, −50, b"abc")`. -/
theorem pack_unpack_roundtrip_witness :
    ∃ bs, pack ⟨true, 7, 10, 5, -50, [97, 98, 99]⟩ = some bs ∧
      bs.length = 14 + [97, 98, 99].length ∧ bs.drop 14 = [97, 98, 99] ∧
      unpack bs = some ⟨true, 7, 10, 5, -50, [97, 98, 99]⟩ :=
  pack_unpack_roundtrip ⟨true, 7, 10, 5, -50, [97, 98, 99]⟩
    (by norm_num) (by norm_num) (by norm_num) (by norm_num) (by norm_num)

/-- C2 (spec-modelled): with `assumed = n − 1` and
`known = inflight.highest_ack`, if `states[assumed].time_sent` is set, an
RTO estimate exists and `now − time_sent < RTO`, then the emitted
`old_num` is `known` when the λ-draw fires (`coin < λ`) and `assumed`
otherwise; in every other case the emitted `old_num` equals `known`. -/
theorem send_message_reference_selection (s : SpecSender) (newStr : List Char)
    (now coin : ℚ) :
    (∀ st ts r, List.lookup (s.next_state_num - 1) s.states = some st →
      st.time_sent = some ts → s.rto = some r → now - ts < r →
      (send_message s newStr now coin).2.old_num =
        (if coin < s.lam then s.inflight.highest_ack else s.next_state_num - 1)) ∧
    (specFresh s (s.next_state_num - 1) now = false →
      (send_message s newStr now coin).2.old_num = s.inflight.highest_ack) := by
  constructor
  · intro st ts r hlk hts hr hlt
    have hfresh : specFresh s (s.next_state_num - 1) now = true := by
      simp [specFresh, hlk, hts, hr, hlt]
    simp [send_message, hfresh]
  · intro hfresh
    simp [send_message, hfresh]

/-- C2 witness: a sender whose previous state 2 was sent at time 0, with
RTO 1, λ = 3/10, sending now at 1/2 with draw 1/5 < λ: the fresh gate is
open and the λ-branch selects `known = highest_ack = 0`. -/
theorem send_message_reference_selection_witness :
    (send_message ⟨[(2, ⟨['a'], some 0⟩)], 3, initTracker, some 1, 3/10⟩
        "ab".toList (1/2) (1/5)).2.old_num =
      (if (1/5 : ℚ) < 3/10 then initTracker.highest_ack else 3 - 1) :=
  (send_message_reference_selection
      ⟨[(2, ⟨['a'], some 0⟩)], 3, initTracker, some 1, 3/10⟩
      "ab".toList (1/2) (1/5)).1
    ⟨['a'], some 0⟩ 0 1 rfl rfl rfl (by norm_num)

end MoshSpec

